import Mathlib

/-!
Verification of the signup workflow and interaction utilities of the
os-automation repository, shallowly embedded in Lean 4.

The embedding translates the Python sources `pages/accounts/signup.py` and
`utils/utilities.py`.  Browser, mail and CRM collaborators are modelled as
explicit environment parameters (streams of responses / outcomes), Python
while-loops are modelled with an explicit fuel argument (a result of `none`
means the loop was still running after `fuel` iterations), and Python
exceptions are modelled with `Except`.
-/

/-! ## String helpers

Python `str.endswith(suffix)` and `pat in s` (substring containment),
modelled over the character list of a Lean `String`. -/

/-- Python `s.endswith(suffix)`. -/
def endswith (s suffix : String) : Bool :=
  List.isSuffixOf suffix.data s.data

/-- Python `pat in s`: substring containment. -/
def strIn (pat s : String) : Bool :=
  decide (pat.data <:+: s.data)

/-! ## Roles (`SignupOld` class constants)

`STUDENT = 'Student'`, `INSTRUCTOR = 'Instructor'`, `ADMINISTRATOR`,
`LIBRARIAN`, `DESIGNER`, `OTHER` from `pages/accounts/signup.py`. -/

inductive Role
  | student
  | instructor
  | administrator
  | librarian
  | designer
  | other
deriving DecidableEq

/-- `non_student_role = _type != SignupOld.STUDENT`
(signup.py line 877). -/
def non_student_role (r : Role) : Bool :=
  decide (r ≠ Role.student)

/-! ## C1: the extra pre-verification confirmation step

`SignupOld.account_signup`, signup.py lines 887-888:

    if non_student_role and not email.endswith('edu'):
        self.next()

`EducatorSignup.sign_up`, signup.py lines 281-282:

    if not email.address.endswith('.edu'):
        form._continue()

Each function models the number of extra confirmation ("continue"/next)
actions issued between the first submit and PIN verification. -/

/-- Number of extra pre-verification `next()` actions issued by
`SignupOld.account_signup` (signup.py lines 887-888).  Note the suffix
tested by the source is `'edu'`, without a dot. -/
def accountSignupExtraConfirmCount (r : Role) (email : String) : Nat :=
  if non_student_role r && !(endswith email "edu") then 1 else 0

/-- Number of extra pre-verification `_continue()` actions issued by
`EducatorSignup.sign_up` (signup.py lines 281-282); the suffix tested
is `'.edu'`. -/
def educatorSignupExtraContinueCount (email : String) : Nat :=
  if !(endswith email ".edu") then 1 else 0

/-- Claim C1 counterexample: for the non-student role Instructor and the
email address `"teacher@riceedu"`, which does not end with `".edu"`, the
claim demands that `SignupOld.account_signup` issue the extra confirmation
action exactly once, but the source tests the suffix `'edu'` (no dot) and
issues none. -/
theorem C1_counterexample :
    non_student_role Role.instructor = true ∧
    endswith "teacher@riceedu" ".edu" = false ∧
    accountSignupExtraConfirmCount Role.instructor "teacher@riceedu" = 0 := by
  decide

/-- Claim C1 (amended): for every non-student role,
`SignupOld.account_signup` skips the extra pre-verification confirmation
step exactly when the email ends with the suffix `"edu"` (no dot) and
otherwise issues it exactly once, while `EducatorSignup.sign_up` skips it
exactly when the email ends with `".edu"` and otherwise issues it exactly
once; in particular every `".edu"` address skips the step in both flows. -/
theorem C1_edu_suffix_branch (r : Role) (email : String)
    (h : non_student_role r = true) :
    (accountSignupExtraConfirmCount r email
      = if endswith email "edu" then 0 else 1) ∧
    (educatorSignupExtraContinueCount email
      = if endswith email ".edu" then 0 else 1) ∧
    (endswith email ".edu" = true →
      accountSignupExtraConfirmCount r email = 0 ∧
      educatorSignupExtraContinueCount email = 0) := by
  refine ⟨?_, ?_, ?_⟩
  · unfold accountSignupExtraConfirmCount
    rw [h]
    cases hE : endswith email "edu" <;> simp
  · unfold educatorSignupExtraContinueCount
    cases hE : endswith email ".edu" <;> simp
  · intro hdot
    have hplain : endswith email "edu" = true := by
      unfold endswith at hdot ⊢
      rw [List.isSuffixOf_iff_suffix] at hdot ⊢
      exact List.IsSuffix.trans (by decide) hdot
    constructor
    · unfold accountSignupExtraConfirmCount
      rw [h, hplain]
      simp
    · unfold educatorSignupExtraContinueCount
      rw [hdot]
      simp

/-- Claim C1 amended-claim witness at a concrete input. -/
theorem C1_edu_suffix_branch_witness :
    accountSignupExtraConfirmCount Role.instructor "a@rice.edu" = 0 ∧
    educatorSignupExtraContinueCount "a@rice.edu" = 0 := by
  have h := C1_edu_suffix_branch Role.instructor "a@rice.edu" (by decide)
  exact h.2.2 (by decide)

/-! ## C2: form-submit transitions raise on an unchanged location

`StudentSignup.Content._continue` (signup.py lines 609-632) and
`ConfirmEmail.Content.confirm_my_account` (signup.py lines 198-223):

    current_page = self.page.location
    button = self.find_element(...)
    Utility.click_option(self.driver, element=button)
    sleep(0.5)
    if self.driver.current_url == current_page:
        raise AccountsException(<.invalid-message textContent>)
    ... return go_to_(<next page>)

The submit environment records the location before the click, the browser
location observed after the click, and the inline error text the page shows
when the form was rejected. -/

structure SubmitEnv where
  locationBefore : String
  locationAfter : String
  inlineError : String

inductive NextPage
  | studentSignup
  | confirmEmail
  | completeSignup
  | verifyInstructor
deriving DecidableEq

/-- One UI action issued against the browser. -/
inductive UIAction
  | clickSubmit
  | toggleNews
  | agreeTerms
  | clearPin
  | submitPin (pin : String)
deriving DecidableEq

/-- `StudentSignup.Content._continue` (signup.py lines 609-632): one click
of the Continue button; raises `AccountsException` with the inline error
text when the location did not change, otherwise advances to the email
confirmation page. -/
def StudentSignup.continueStep (env : SubmitEnv) :
    Except String NextPage × List UIAction :=
  if env.locationAfter = env.locationBefore then
    (.error env.inlineError, [UIAction.clickSubmit])
  else
    (.ok NextPage.confirmEmail, [UIAction.clickSubmit])

/-- `ConfirmEmail.Content.confirm_my_account` (signup.py lines 198-223):
one click of the Confirm-my-account button; raises `AccountsException`
with the inline error text when the location did not change, otherwise
advances to the SheerID verification page when the new location contains
`'sheerid.com'` and to the completion page otherwise. -/
def ConfirmEmail.confirm_my_account (env : SubmitEnv) :
    Except String NextPage × List UIAction :=
  if env.locationAfter = env.locationBefore then
    (.error env.inlineError, [UIAction.clickSubmit])
  else if strIn "sheerid.com" env.locationAfter then
    (.ok NextPage.verifyInstructor, [UIAction.clickSubmit])
  else
    (.ok NextPage.completeSignup, [UIAction.clickSubmit])

/-- Claim C2: for both form-submit transitions, a post-submit location
equal to the pre-submit location raises the form-rejected signal carrying
the inline error text, a changed location advances to a next page with no
signal, and in either case exactly one submit click is issued (no
automatic resubmission). -/
theorem C2_submit_rejection (env : SubmitEnv) :
    (env.locationAfter = env.locationBefore →
      (StudentSignup.continueStep env).1 = .error env.inlineError ∧
      (ConfirmEmail.confirm_my_account env).1 = .error env.inlineError) ∧
    (env.locationAfter ≠ env.locationBefore →
      (∃ p, (StudentSignup.continueStep env).1 = .ok p) ∧
      (∃ p, (ConfirmEmail.confirm_my_account env).1 = .ok p)) ∧
    (StudentSignup.continueStep env).2.count UIAction.clickSubmit = 1 ∧
    (ConfirmEmail.confirm_my_account env).2.count UIAction.clickSubmit = 1 := by
  unfold StudentSignup.continueStep ConfirmEmail.confirm_my_account
  by_cases hloc : env.locationAfter = env.locationBefore
  · refine ⟨fun _ => ⟨?_, ?_⟩, fun hne => absurd hloc hne, ?_, ?_⟩ <;>
      simp [hloc]
  · refine ⟨fun heq => absurd heq hloc, fun _ => ⟨?_, ?_⟩, ?_, ?_⟩
    · exact ⟨NextPage.confirmEmail, by simp [hloc]⟩
    · by_cases hsheer : strIn "sheerid.com" env.locationAfter = true
      · exact ⟨NextPage.verifyInstructor, by simp [hloc, hsheer]⟩
      · exact ⟨NextPage.completeSignup, by
          simp only [Bool.not_eq_true] at hsheer
          simp [hloc, hsheer]⟩
    · simp [hloc]
    · by_cases hsheer : strIn "sheerid.com" env.locationAfter = true <;>
        simp [hloc, hsheer]

/-- Claim C2 witness: a rejected submission at a concrete environment. -/
theorem C2_submit_rejection_witness :
    (StudentSignup.continueStep
      ⟨"/signup/student", "/signup/student", "Email is invalid"⟩).1
      = .error "Email is invalid" := by
  exact ((C2_submit_rejection
    ⟨"/signup/student", "/signup/student", "Email is invalid"⟩).1 rfl).1

/-! ## C3 and C4: the PIN verification loop

`SignupOld.account_signup`, signup.py lines 891-924:

    not_verified = True
    while not_verified:
        ... mailer = RestMail(account_name) ...
        pin = self._get_pin(page=mailer, ...)
        if not pin:
            raise ValueError('PIN not found')
        self.pin.clear_pin()
        self.pin.verify_pin = pin
        self.next()
        sleep(0.25)
        if not self.pin.pin_failure:
            not_verified = False

and `SignupOld._get_pin` for the restmail provider, signup.py lines
1100-1104:

    box = page.wait_for_mail()
    return box[-1].pin

The mail collaborator is the stream `inbox`: `inbox k` is the ordered
message list returned by the `k`-th `wait_for_mail` fetch (newest last).
`rejected k` tells whether the page reported `pin_failure` after the
`k`-th submission.  Each recorded pin stands for one full
fetch-clear-submit iteration of the loop. -/

structure Message where
  pin : String
deriving DecidableEq

/-- `box[-1].pin`: the PIN of the newest (last) message of a fetched
inbox (signup.py lines 1103-1104). -/
def lastPin (box : List Message) : String :=
  (box.getLastD ⟨""⟩).pin

/-- The `while not_verified` loop of `SignupOld.account_signup`
(signup.py lines 891-924), with explicit fuel.  `acc` carries the pins
submitted so far; a `none` result means the loop was still running after
`fuel` iterations. -/
def pinLoop (inbox : Nat → List Message) (rejected : Nat → Bool) :
    Nat → Nat → List String → Option (Except String (List String))
  | 0, _, _ => none
  | fuel + 1, k, acc =>
    let pin := lastPin (inbox k)
    if pin = "" then some (Except.error "PIN not found")
    else if rejected k then pinLoop inbox rejected fuel (k + 1) (acc ++ [pin])
    else some (Except.ok (acc ++ [pin]))

/-- The PIN verification phase of `SignupOld.account_signup`: run the
loop from the first fetch with no pin submitted yet. -/
def account_signup_pin_phase (inbox : Nat → List Message)
    (rejected : Nat → Bool) (fuel : Nat) :
    Option (Except String (List String)) :=
  pinLoop inbox rejected fuel 0 []

lemma pinLoop_all_rejected (inbox : Nat → List Message)
    (rejected : Nat → Bool) (hpin : ∀ k, lastPin (inbox k) ≠ "")
    (hrej : ∀ k, rejected k = true) :
    ∀ fuel k acc, pinLoop inbox rejected fuel k acc = none := by
  intro fuel
  induction fuel with
  | zero => intro k acc; rfl
  | succ fuel ih =>
    intro k acc
    simp only [pinLoop, hpin k, if_neg, hrej k, if_pos]
    simpa using ih (k + 1) (acc ++ [lastPin (inbox k)])

lemma pinLoop_first_accept (inbox : Nat → List Message)
    (rejected : Nat → Bool) (hpin : ∀ k, lastPin (inbox k) ≠ "") :
    ∀ fuel n k acc, (∀ j, j < n → rejected (k + j) = true) →
      rejected (k + n) = false → n < fuel →
      pinLoop inbox rejected fuel k acc =
        some (Except.ok
          (acc ++ (List.range' k (n + 1)).map (fun j => lastPin (inbox j)))) := by
  intro fuel
  induction fuel with
  | zero => intro n k acc _ _ hlt; omega
  | succ fuel ih =>
    intro n k acc hbefore haccept hlt
    cases n with
    | zero =>
      have h0 : rejected k = false := by simpa using haccept
      simp [pinLoop, hpin k, h0, List.range'_one]
    | succ n =>
      have hk : rejected k = true := by
        have := hbefore 0 (Nat.succ_pos n)
        simpa using this
      have hrec := ih n (k + 1) (acc ++ [lastPin (inbox k)])
        (fun j hj => by
          have := hbefore (j + 1) (by omega)
          simpa [Nat.add_assoc, Nat.add_comm 1 j] using this)
        (by simpa [Nat.add_assoc, Nat.add_comm 1 n] using haccept)
        (by omega)
      simp only [pinLoop, hpin k, if_neg, hk, if_pos]
      rw [hrec]
      have hrange : List.range' k (n + 1 + 1) = k :: List.range' (k + 1) (n + 1) := by
        rw [List.range'_succ]
      rw [hrange]
      simp

/-- Claim C3: the PIN loop has no maximum attempt count: with pins always
present, a run in which every submission is rejected never terminates
(for every fuel the loop is still running), and a run whose submissions
are rejected before index `n` and accepted at index `n` (the `n + 1`-st
submission, counting from one) performs exactly `n + 1` fetch-clear-submit
iterations and then exits accepted. -/
theorem C3_pin_loop_unbounded (inbox : Nat → List Message)
    (rejected : Nat → Bool) (hpin : ∀ k, lastPin (inbox k) ≠ "") :
    ((∀ k, rejected k = true) →
      ∀ fuel, account_signup_pin_phase inbox rejected fuel = none) ∧
    (∀ n fuel, (∀ j, j < n → rejected j = true) → rejected n = false →
      n < fuel →
      ∃ pins, account_signup_pin_phase inbox rejected fuel
          = some (Except.ok pins) ∧ pins.length = n + 1) := by
  constructor
  · intro hrej fuel
    exact pinLoop_all_rejected inbox rejected hpin hrej fuel 0 []
  · intro n fuel hbefore haccept hlt
    refine ⟨(List.range' 0 (n + 1)).map (fun j => lastPin (inbox j)), ?_, by simp⟩
    have := pinLoop_first_accept inbox rejected hpin fuel n 0 []
      (fun j hj => by simpa using hbefore j hj) (by simpa using haccept) hlt
    simpa [account_signup_pin_phase] using this

/-- Claim C3 witness: with the first two submissions rejected and the
third accepted, the loop performs exactly three iterations. -/
theorem C3_pin_loop_unbounded_witness :
    ∃ pins,
      account_signup_pin_phase (fun _ => [⟨"123456"⟩]) (fun k => decide (k < 2)) 9
        = some (Except.ok pins) ∧ pins.length = 3 := by
  exact (C3_pin_loop_unbounded (fun _ => [⟨"123456"⟩]) (fun k => decide (k < 2))
    (fun _ => (by decide : lastPin [⟨"123456"⟩] ≠ ""))).2 2 9
    (fun j hj => decide_eq_true hj) (by decide) (by decide)

lemma pinLoop_submitted (inbox : Nat → List Message) (rejected : Nat → Bool) :
    ∀ fuel k acc pins,
      pinLoop inbox rejected fuel k acc = some (Except.ok pins) →
      acc.length = k →
      (∀ j, j < k → acc[j]? = some (lastPin (inbox j))) →
      k < pins.length ∧
      (∀ j, j < pins.length → pins[j]? = some (lastPin (inbox j))) := by
  intro fuel
  induction fuel with
  | zero =>
    intro k acc pins h
    exact absurd h (by simp [pinLoop])
  | succ fuel ih =>
    intro k acc pins h hlen hprev
    by_cases hp : lastPin (inbox k) = ""
    · simp [pinLoop, hp] at h
    · have hext : ∀ j, j < k + 1 →
          (acc ++ [lastPin (inbox k)])[j]? = some (lastPin (inbox j)) := by
        intro j hj
        rcases Nat.lt_or_ge j k with hjk | hjk
        · rw [List.getElem?_append_left (by omega)]
          exact hprev j hjk
        · have hjeq : j = k := by omega
          subst hjeq
          rw [← hlen, List.getElem?_concat_length]
      by_cases hr : rejected k = true
      · simp only [pinLoop, hp, if_neg, hr, if_pos] at h
        have := ih (k + 1) (acc ++ [lastPin (inbox k)]) pins h
          (by simp [hlen]) hext
        exact ⟨by omega, this.2⟩
      · simp only [pinLoop, hp, if_neg, hr, if_pos] at h
        have hpins : pins = acc ++ [lastPin (inbox k)] := by
          have := h
          simp at this
          exact this.symm
        subst hpins
        refine ⟨by simp [hlen], ?_⟩
        intro j hj
        have hj2 : j < k + 1 := by
          simpa [hlen] using hj
        exact hext j hj2

/-- Claim C4: in every accepted run of the PIN verification loop, the pin
submitted on the `j`-th iteration equals the pin extracted from the newest
(last) message of the inbox as fetched at that iteration - a stale pin from
any earlier fetch or earlier message is never submitted, and every rejected
attempt is followed by a fresh fetch (`inbox (j + 1)`) before the next
submission. -/
theorem C4_pin_freshness (inbox : Nat → List Message) (rejected : Nat → Bool)
    (fuel : Nat) (pins : List String)
    (h : account_signup_pin_phase inbox rejected fuel
      = some (Except.ok pins)) :
    1 ≤ pins.length ∧
    (∀ j, j < pins.length → pins[j]? = some (lastPin (inbox j))) := by
  have := pinLoop_submitted inbox rejected fuel 0 [] pins h rfl
    (fun j hj => absurd hj (by omega))
  exact ⟨this.1, this.2⟩

/-- Claim C4 witness: a two-iteration run (first rejection, then
acceptance) submits exactly the newest pins of the two fetches. -/
theorem C4_pin_freshness_witness :
    ∃ pins,
      account_signup_pin_phase
        (fun k => if k = 0 then [⟨"111111"⟩] else [⟨"111111"⟩, ⟨"222222"⟩])
        (fun k => decide (k = 0)) 5 = some (Except.ok pins) ∧
      1 ≤ pins.length ∧
      (∀ j, j < pins.length → pins[j]? = some (lastPin
        ((fun k => if k = 0 then [⟨"111111"⟩] else [⟨"111111"⟩, ⟨"222222"⟩]) j))) := by
  refine ⟨["111111", "222222"], rfl, ?_⟩
  exact C4_pin_freshness
    (fun k => if k = 0 then [⟨"111111"⟩] else [⟨"111111"⟩, ⟨"222222"⟩])
    (fun k => decide (k = 0)) 5 ["111111", "222222"] rfl

/-! ## C5: `SignupOld.subject_list`

signup.py lines 730-759 (the `SUBJECTS` catalog) and lines 767-778:

    def subject_list(self, size=1):
        subjects = len(self.SUBJECTS)
        if size > subjects:
            size = subjects
        book = ''
        group = []
        while len(group) < size:
            book = (self.SUBJECTS[Utility.random(0, subjects - 1)])[1]
            if book not in group:
                group.append(book)
        return group

`Utility.random` (utilities.py lines 399-404) draws from the inclusive
range `[start, stop]`; the random source is modelled by the stream
`choices`, reduced into the range exactly as `randint` would pick. -/

def SUBJECTS : List (String × String) := [
  ("accounting", "Accounting"),
  ("algebra_and_trigonometry", "Algebra and Trigonometry"),
  ("american_government", "American Government"),
  ("anatomy_physiology", "Anatomy and Physiology"),
  ("astronomy", "Astronomy"),
  ("biology", "Biology"),
  ("calculus", "Calculus"),
  ("chemistry", "Chemistry"),
  ("chem_atoms_first", "Chemistry: Atoms First"),
  ("college_algebra", "College Algebra"),
  ("college_physics_algebra", "College Physics"),
  ("concepts_of_bio_non_majors", "Concepts of Biology"),
  ("introduction_to_business", "Introduction to Business"),
  ("introduction_to_sociology", "Introduction to Sociology 2e"),
  ("introductory_statistics", "Introductory Statistics"),
  ("microbiology", "Microbiology"),
  ("pre_algebra", "Prealgebra"),
  ("precalc", "Precalculus"),
  ("economics", "Principles of Economics"),
  ("macro_econ", "Principles of Macroeconomics"),
  ("ap_macro_econ", "Principles of Macroeconomics for AP® Courses"),
  ("micro_econ", "Principles of Microeconomics"),
  ("ap_micro_econ", "Principles of Microeconomics for AP® Courses"),
  ("psychology", "Psychology"),
  ("ap_physics", "The AP Physics Collection"),
  ("us_history", "U.S. History"),
  ("university_physics_calc", "University Physics"),
  ("not_listed", "Not Listed")]

/-- The catalog titles (second components), the values `subject_list`
selects from. -/
def subjectTitles : List String :=
  SUBJECTS.map Prod.snd

/-- `Utility.random(start, stop)` (utilities.py lines 399-404): returns
`start` when `start >= stop`, otherwise a value of the inclusive range
`[start, stop]`, here driven by the choice `c`. -/
def Utility.random (start stop c : Nat) : Nat :=
  if start ≥ stop then start else start + c % (stop - start + 1)

/-- The `while len(group) < size` loop of `SignupOld.subject_list`
(signup.py lines 774-777), with explicit fuel. -/
def subjectListLoop (choices : Nat → Nat) (size : Nat) :
    Nat → Nat → List String → Option (List String)
  | 0, _, group => if group.length < size then none else some group
  | fuel + 1, k, group =>
    if group.length < size then
      let book :=
        (SUBJECTS.getD (Utility.random 0 (SUBJECTS.length - 1) (choices k))
          ("", "")).2
      subjectListLoop choices size fuel (k + 1)
        (if book ∈ group then group else group ++ [book])
    else some group

/-- `SignupOld.subject_list` (signup.py lines 767-778): clamp the request
to the catalog size, then run the selection loop. -/
def subject_list (fuel : Nat) (choices : Nat → Nat) (size : Nat) :
    Option (List String) :=
  let subjects := SUBJECTS.length
  subjectListLoop choices (if size > subjects then subjects else size) fuel 0 []

lemma subjectListLoop_book_mem (c : Nat) :
    (SUBJECTS.getD (Utility.random 0 (SUBJECTS.length - 1) c) ("", "")).2
      ∈ subjectTitles := by
  have hidx : Utility.random 0 (SUBJECTS.length - 1) c < SUBJECTS.length := by
    unfold Utility.random
    have hlen : SUBJECTS.length = 28 := rfl
    rw [hlen]
    have : c % 28 < 28 := Nat.mod_lt _ (by omega)
    simpa using this
  rw [List.getD_eq_getElem SUBJECTS ("", "") hidx]
  exact List.mem_map_of_mem Prod.snd (List.getElem_mem hidx)

lemma subjectListLoop_spec (choices : Nat → Nat) (size : Nat) :
    ∀ fuel k group, group.Nodup → (∀ t ∈ group, t ∈ subjectTitles) →
      group.length ≤ size →
      ∀ out, subjectListLoop choices size fuel k group = some out →
        out.Nodup ∧ (∀ t ∈ out, t ∈ subjectTitles) ∧ out.length = size := by
  intro fuel
  induction fuel with
  | zero =>
    intro k group hnd hsub hlen out h
    simp only [subjectListLoop] at h
    by_cases hlt : group.length < size
    · simp [hlt] at h
    · rw [if_neg hlt] at h
      have hout : group = out := by simpa using h
      subst hout
      exact ⟨hnd, hsub, by omega⟩
  | succ fuel ih =>
    intro k group hnd hsub hlen out h
    simp only [subjectListLoop] at h
    by_cases hlt : group.length < size
    · rw [if_pos hlt] at h
      by_cases hin :
          (SUBJECTS.getD (Utility.random 0 (SUBJECTS.length - 1) (choices k))
            ("", "")).2 ∈ group
      · rw [if_pos hin] at h
        exact ih (k + 1) group hnd hsub (by omega) out h
      · rw [if_neg hin] at h
        refine ih (k + 1) _ ?_ ?_ ?_ out h
        · rw [← List.concat_eq_append]
          exact List.Nodup.concat hin hnd
        · intro t ht
          rcases List.mem_append.mp ht with h1 | h2
          · exact hsub t h1
          · have ht2 :
                t = (SUBJECTS.getD
                  (Utility.random 0 (SUBJECTS.length - 1) (choices k))
                  ("", "")).2 := by
              simpa using h2
            rw [ht2]
            exact subjectListLoop_book_mem (choices k)
        · simp only [List.length_append, List.length_singleton]
          omega
    · rw [if_neg hlt] at h
      have hout : group = out := by simpa using h
      subst hout
      exact ⟨hnd, hsub, by omega⟩

lemma subjectTitles_nodup : subjectTitles.Nodup := by decide

lemma subjectTitles_length : subjectTitles.length = SUBJECTS.length := by
  simp [subjectTitles]

/-- Claim C5: whenever `subject_list(size)` returns, the returned group is
a duplicate-free list of catalog titles of length `min size |SUBJECTS|`;
for `size` at least the catalog size it is exactly the full catalog (every
catalog title once, no duplicates), and for `size = 0` it is empty. -/
theorem C5_subject_list_clamped (fuel : Nat) (choices : Nat → Nat)
    (size : Nat) (out : List String)
    (h : subject_list fuel choices size = some out) :
    out.Nodup ∧ out.length = min size SUBJECTS.length ∧
    (∀ t ∈ out, t ∈ subjectTitles) ∧
    (SUBJECTS.length ≤ size → ∀ t ∈ subjectTitles, t ∈ out) ∧
    (size = 0 → out = []) := by
  unfold subject_list at h
  obtain ⟨hnd, hsub, hlen⟩ := subjectListLoop_spec choices
    (if size > SUBJECTS.length then SUBJECTS.length else size) fuel 0 []
    List.nodup_nil (by simp) (by simp) out h
  have hmineq : (if size > SUBJECTS.length then SUBJECTS.length else size)
      = min size SUBJECTS.length := by
    rcases Nat.lt_or_ge SUBJECTS.length size with hc | hc
    · rw [if_pos hc, Nat.min_eq_right (by omega)]
    · rw [if_neg (by omega), Nat.min_eq_left (by omega)]
  refine ⟨hnd, by rw [hlen, hmineq], hsub, ?_, ?_⟩
  · intro hge t ht
    have hsp : out.Subperm subjectTitles :=
      List.Nodup.subperm hnd (fun x hx => hsub x hx)
    have hperm : out.Perm subjectTitles := by
      refine hsp.perm_of_length_le ?_
      rw [subjectTitles_length, hlen, hmineq, Nat.min_eq_right (by omega)]
    exact hperm.mem_iff.mpr ht
  · intro h0
    have : out.length = 0 := by
      rw [hlen, hmineq, h0]
      simp
    exact List.length_eq_zero.mp this

/-- Claim C5 witness: a terminating concrete run with `size = 3`. -/
theorem C5_subject_list_clamped_witness :
    ∃ out, subject_list 5 (fun k => k) 3 = some out ∧
      out.Nodup ∧ out.length = min 3 SUBJECTS.length := by
  refine ⟨_, rfl, (C5_subject_list_clamped 5 (fun k => k) 3 _ rfl).1,
    (C5_subject_list_clamped 5 (fun k => k) 3 _ rfl).2.1⟩

/-! ## C6: the newsletter toggle in the terms-and-newsletter step

`SignupOld.account_signup`, signup.py lines 1011-1014:

    if not kwargs.get('news'):
        self.user.toggle_news()
    if not tutor:
        self.user.agree_to_terms()

`SignupOld.UserFields.toggle_news` (signup.py lines 1340-1344) issues a
single click on the newsletter control.  `news` is `kwargs.get('news')`
(`none` when the keyword is absent); `priorNewsChecked` is the newsletter
control's state in the browser, which the source never consults. -/

def termsAndNewsStep (news : Option Bool) (tutor : Bool)
    (_priorNewsChecked : Bool) : List UIAction :=
  (if news.getD false then [] else [UIAction.toggleNews]) ++
  (if tutor then [] else [UIAction.agreeTerms])

/-- Claim C6: when news is absent or false the step issues exactly one
toggle of the newsletter control, when news is true it issues none, and
the decision is independent of the control's prior state (the source
never reads it). -/
theorem C6_news_toggle_policy (news : Option Bool) (tutor : Bool)
    (prior : Bool) :
    (termsAndNewsStep news tutor prior).count UIAction.toggleNews
      = (if news = some true then 0 else 1) ∧
    (∀ p q : Bool,
      termsAndNewsStep news tutor p = termsAndNewsStep news tutor q) := by
  refine ⟨?_, fun p q => rfl⟩
  rcases news with _ | b
  · cases tutor <;> simp [termsAndNewsStep]
  · cases b <;> cases tutor <;> simp [termsAndNewsStep]

/-- Claim C6 witness at a concrete input: news absent, one toggle. -/
theorem C6_news_toggle_policy_witness :
    (termsAndNewsStep none false true).count UIAction.toggleNews = 1 := by
  have h := (C6_news_toggle_policy none false true).1
  simpa using h

/-! ## C7: `Utility.click_option`

utilities.py lines 104-128:

    element = element if element else driver.find_element(*locator)
    cls.scroll_to(driver=driver, element=element, shift=-80)
    sleep(0.5)
    try:
        if force_js_click or \
                driver.capabilities.get('browserName').lower() == 'safari':
            raise WebDriverException('Bypassing the driver-defined click')
        element.click()
    except WebDriverException:
        for _ in range(10):
            try:
                driver.execute_script(JAVASCRIPT_CLICK, element)
                break
            except ElementClickInterceptedException:
                sleep(1.0)
            except NoSuchElementException:
                if locator:
                    element = driver.find_element(*locator)
            except StaleElementReferenceException:
                if locator:
                    element = driver.find_element(*locator)

`attempts k` is the outcome of the `k`-th synthetic (`execute_script`)
dispatch.  A tolerated error is caught and the loop moves on; any other
error propagates; exhausting the ten iterations falls out of the loop and
the call returns normally. -/

inductive ClickErr
  | intercepted
  | notFound
  | stale
  | otherErr (msg : String)
deriving DecidableEq

/-- The three exception classes the fallback loop catches. -/
def toleratedClickErr : ClickErr → Bool
  | ClickErr.intercepted => true
  | ClickErr.notFound => true
  | ClickErr.stale => true
  | ClickErr.otherErr _ => false

inductive AttemptOutcome
  | ok
  | err (e : ClickErr)
deriving DecidableEq

/-- The `for _ in range(10)` fallback loop of `Utility.click_option`:
`break` on success, catch tolerated errors and continue, propagate
anything else; falling off the end returns normally. -/
def jsClickLoop (attempts : Nat → AttemptOutcome) :
    Nat → Nat → Except ClickErr Unit
  | 0, _ => Except.ok ()
  | fuel + 1, k =>
    match attempts k with
    | AttemptOutcome.ok => Except.ok ()
    | AttemptOutcome.err e =>
      if toleratedClickErr e then jsClickLoop attempts fuel (k + 1)
      else Except.error e

/-- `Utility.click_option` (utilities.py lines 104-128): native click
unless bypassed (forced or Safari); on a native-click failure fall back
to the bounded synthetic-dispatch loop. -/
def click_option (forceJsClick isSafari nativeClickOk : Bool)
    (attempts : Nat → AttemptOutcome) : Except ClickErr Unit :=
  if forceJsClick || isSafari then jsClickLoop attempts 10 0
  else if nativeClickOk then Except.ok ()
  else jsClickLoop attempts 10 0

/-- Claim C7 counterexample: with the native click failing and every one
of the ten synthetic attempts failing with the tolerated
`ElementClickInterceptedException`, the claim demands that the last error
be raised to the caller, but `click_option` swallows the errors and
returns normally. -/
theorem C7_counterexample :
    toleratedClickErr ClickErr.intercepted = true ∧
    click_option false false false
      (fun _ => AttemptOutcome.err ClickErr.intercepted) = Except.ok () :=
  ⟨rfl, rfl⟩

lemma jsClickLoop_all_tolerated (attempts : Nat → AttemptOutcome) :
    ∀ fuel k,
      (∀ j, j < fuel →
        ∃ e, attempts (k + j) = AttemptOutcome.err e ∧
          toleratedClickErr e = true) →
      jsClickLoop attempts fuel k = Except.ok () := by
  intro fuel
  induction fuel with
  | zero => intro k _; rfl
  | succ fuel ih =>
    intro k h
    obtain ⟨e, he, htol⟩ := h 0 (Nat.succ_pos fuel)
    rw [Nat.add_zero] at he
    simp only [jsClickLoop, he, htol, if_pos]
    exact ih (k + 1) (fun j hj => by
      obtain ⟨e2, he2, ht2⟩ := h (j + 1) (by omega)
      exact ⟨e2, by simpa [Nat.add_assoc, Nat.add_comm 1 j] using he2, ht2⟩)

/-- Claim C7 (amended): when the native click fails and all ten synthetic
dispatch attempts fail with tolerated transient errors (obstructed, not
found, or stale reference), `Utility.click_option` absorbs the errors and
returns normally; no error is surfaced to the caller after the retry
bound is exhausted. -/
theorem C7_tolerated_errors_absorbed (forceJsClick isSafari
    nativeClickOk : Bool) (attempts : Nat → AttemptOutcome)
    (h : ∀ j, j < 10 →
      ∃ e, attempts j = AttemptOutcome.err e ∧ toleratedClickErr e = true) :
    click_option forceJsClick isSafari nativeClickOk attempts
      = Except.ok () := by
  have hloop : jsClickLoop attempts 10 0 = Except.ok () :=
    jsClickLoop_all_tolerated attempts 10 0 (fun j hj => by
      simpa using h j hj)
  unfold click_option
  by_cases h1 : (forceJsClick || isSafari) = true
  · rw [if_pos h1]; exact hloop
  · rw [if_neg h1]
    by_cases h2 : nativeClickOk = true
    · rw [if_pos h2]
    · rw [if_neg h2]; exact hloop

/-- Claim C7 amended-claim witness: ten stale-reference failures are
absorbed. -/
theorem C7_tolerated_errors_absorbed_witness :
    click_option false false false
      (fun _ => AttemptOutcome.err ClickErr.stale) = Except.ok () := by
  exact C7_tolerated_errors_absorbed false false false
    (fun _ => AttemptOutcome.err ClickErr.stale)
    (fun j _ => ⟨ClickErr.stale, rfl, rfl⟩)

/-! ## C8: `Salesforce.query`

utilities.py lines 915-934:

    results = self._sf.query(query)
    self._size = results.get('totalSize', 0)
    self._records = results.get('records', [])
    self.records = []
    additional_records = results.get('nextRecordUrl', '').split('/')[-1]
    while additional_records:
        results = self._sf.query_more(additional_records)
        self._records = self._records + results.get('records', [])
        additional_records = (
            results.get('nextRecordUrl', '').split('/')[-1])

The CRM collaborator is modelled by the first response `first` (the
result of `self._sf.query`) and by `qm`, mapping a page token to the
response of `self._sf.query_more`. -/

abbrev SFRecord := Nat

structure SFResponse where
  totalSize : Nat
  records : List SFRecord
  nextRecordUrl : String

/-- Python `str.split(sep)` for a one-character separator, over the
character list. -/
def splitOnChar (sep : Char) : List Char → List (List Char)
  | [] => [[]]
  | c :: rest =>
    match splitOnChar sep rest with
    | [] => [[]]
    | seg :: segs =>
      if c = sep then [] :: seg :: segs else (c :: seg) :: segs

/-- `results.get('nextRecordUrl', '').split('/')[-1]`: the next-page
token carried by a response (empty when there is no further page). -/
def pageToken (r : SFResponse) : String :=
  String.mk ((splitOnChar '/' r.nextRecordUrl.data).getLastD [])

/-- The `while additional_records` loop of `Salesforce.query`, with
explicit fuel.  `recs` is the `_records` accumulator and `resps` the
responses received so far (for the specification). -/
def queryMoreLoop (qm : String → SFResponse) :
    Nat → String → List SFRecord → List SFResponse →
    Option (List SFRecord × List SFResponse)
  | 0, tok, recs, resps => if tok = "" then some (recs, resps) else none
  | fuel + 1, tok, recs, resps =>
    if tok = "" then some (recs, resps)
    else
      queryMoreLoop qm fuel (pageToken (qm tok))
        (recs ++ (qm tok).records) (resps ++ [qm tok])

/-- `Salesforce.query` (utilities.py lines 915-934): materialize
`_records` from the first response and from every `query_more` page
while a non-empty next-page token remains. -/
def Salesforce.query (qm : String → SFResponse) (first : SFResponse)
    (fuel : Nat) : Option (List SFRecord × List SFResponse) :=
  queryMoreLoop qm fuel (pageToken first) first.records [first]

lemma queryMoreLoop_spec (qm : String → SFResponse) :
    ∀ fuel tok recs resps recsF respsF,
      queryMoreLoop qm fuel tok recs resps = some (recsF, respsF) →
      recs = (resps.map SFResponse.records).flatten →
      (∃ lastR, resps.getLast? = some lastR ∧ pageToken lastR = tok) →
      (∀ i r1 r2, resps[i]? = some r1 → resps[i + 1]? = some r2 →
        pageToken r1 ≠ "" ∧ r2 = qm (pageToken r1)) →
      recsF = (respsF.map SFResponse.records).flatten ∧
      respsF.head? = resps.head? ∧
      (∀ i r1 r2, respsF[i]? = some r1 → respsF[i + 1]? = some r2 →
        pageToken r1 ≠ "" ∧ r2 = qm (pageToken r1)) ∧
      (∃ lastR, respsF.getLast? = some lastR ∧ pageToken lastR = "") := by
  intro fuel
  induction fuel with
  | zero =>
    intro tok recs resps recsF respsF h hrecs hlast hchain
    by_cases htok : tok = ""
    · rw [queryMoreLoop, if_pos htok] at h
      obtain ⟨h1, h2⟩ : recs = recsF ∧ resps = respsF := by
        simpa using h
      subst h1; subst h2
      obtain ⟨lastR, hl1, hl2⟩ := hlast
      exact ⟨hrecs, rfl, hchain, ⟨lastR, hl1, by rw [hl2, htok]⟩⟩
    · rw [queryMoreLoop, if_neg htok] at h
      exact absurd h (by simp)
  | succ fuel ih =>
    intro tok recs resps recsF respsF h hrecs hlast hchain
    by_cases htok : tok = ""
    · rw [queryMoreLoop, if_pos htok] at h
      obtain ⟨h1, h2⟩ : recs = recsF ∧ resps = respsF := by
        simpa using h
      subst h1; subst h2
      obtain ⟨lastR, hl1, hl2⟩ := hlast
      exact ⟨hrecs, rfl, hchain, ⟨lastR, hl1, by rw [hl2, htok]⟩⟩
    · rw [queryMoreLoop, if_neg htok] at h
      obtain ⟨lastR, hl1, hl2⟩ := hlast
      have hne : resps ≠ [] := by
        intro hnil
        rw [hnil] at hl1
        exact absurd hl1 (by simp)
      have hres := ih (pageToken (qm tok)) (recs ++ (qm tok).records)
        (resps ++ [qm tok]) recsF respsF h
        (by rw [hrecs, List.map_append, List.flatten_append]; simp)
        ⟨qm tok, List.getLast?_concat resps, rfl⟩
        ?_
      · refine ⟨hres.1, ?_, hres.2.2.1, hres.2.2.2⟩
        rw [hres.2.1, List.head?_append]
        cases hh : resps.head? with
        | none => exact absurd (List.head?_eq_none_iff.mp hh) hne
        | some r0 => rfl
      · intro i r1 r2 h1 h2
        rcases Nat.lt_or_ge (i + 1) resps.length with hi | hi
        · rw [List.getElem?_append_left (by omega)] at h1 h2
          exact hchain i r1 r2 h1 h2
        · rcases Nat.lt_or_ge i resps.length with hi2 | hi2
          · have hieq : i + 1 = resps.length := by omega
            have hr2 : r2 = qm tok := by
              rw [List.getElem?_append_right (by omega), hieq] at h2
              simp at h2
              exact h2.symm
            have hr1 : r1 = lastR := by
              rw [List.getElem?_append_left hi2] at h1
              rw [List.getLast?_eq_getElem?] at hl1
              have : i = resps.length - 1 := by omega
              rw [this] at h1
              rw [h1] at hl1
              exact Option.some.inj hl1
            subst hr1; subst hr2
            exact ⟨by rw [hl2]; exact htok, by rw [hl2]⟩
          · rw [List.getElem?_eq_none (by
              simp only [List.length_append, List.length_singleton]
              omega)] at h2
            exact absurd h2 (by simp)

/-- Claim C8: whenever `Salesforce.query` completes, the materialized
`_records` list is the in-order concatenation of the records of every
returned page, the first page is the direct query response, every
response followed by another carried a non-empty next-page token whose
`query_more` produced that next response, and the final response carries
no further token. -/
theorem C8_salesforce_pagination (qm : String → SFResponse)
    (first : SFResponse) (fuel : Nat) (recs : List SFRecord)
    (resps : List SFResponse)
    (h : Salesforce.query qm first fuel = some (recs, resps)) :
    recs = (resps.map SFResponse.records).flatten ∧
    resps.head? = some first ∧
    (∀ i r1 r2, resps[i]? = some r1 → resps[i + 1]? = some r2 →
      pageToken r1 ≠ "" ∧ r2 = qm (pageToken r1)) ∧
    (∃ lastR, resps.getLast? = some lastR ∧ pageToken lastR = "") := by
  have hres := queryMoreLoop_spec qm fuel (pageToken first) first.records
    [first] recs resps h (by simp) ⟨first, rfl, rfl⟩
    (fun i r1 r2 h1 h2 => by
      have : i + 1 < 1 := by
        by_contra hc
        rw [List.getElem?_eq_none (by
          simp only [List.length_singleton]
          omega)] at h2
        exact absurd h2 (by simp)
      omega)
  exact ⟨hres.1, by rw [hres.2.1]; rfl, hres.2.2.1, hres.2.2.2⟩

/-- Claim C8 witness: a two-page query materializes both pages in order
and stops on the empty token. -/
theorem C8_salesforce_pagination_witness :
    ∃ recs resps,
      Salesforce.query
        (fun tok => if tok = "next1"
          then ⟨4, [30, 40], ""⟩
          else ⟨0, [], ""⟩)
        ⟨4, [10, 20], "/services/data/query/next1"⟩ 3
        = some (recs, resps) ∧
      recs = (resps.map SFResponse.records).flatten ∧
      resps.head? = some ⟨4, [10, 20], "/services/data/query/next1"⟩ := by
  have hq : Salesforce.query
      (fun tok => if tok = "next1"
        then ⟨4, [30, 40], ""⟩
        else ⟨0, [], ""⟩)
      ⟨4, [10, 20], "/services/data/query/next1"⟩ 3
      = some ([10, 20, 30, 40],
        [⟨4, [10, 20], "/services/data/query/next1"⟩, ⟨4, [30, 40], ""⟩]) := by
    rfl
  have hmain := C8_salesforce_pagination _ _ _ _ _ hq
  exact ⟨_, _, hq, hmain.1, hmain.2.1⟩

/-! ## C9: `Utility.summed_list`

utilities.py lines 546-567 (with `use_float=False`, so `setup = int`):

    if length < 1:
        raise(ValueError("The list length must be >= 1"))
    if total < 0:
        raise(ValueError("The sum (total) must be >= 0"))
    group = ([setup(0)] +
             sorted(setup(random_decimal() * total)
                    for _ in range(length - 1)) +
             [setup(total)])
    return [group[i + 1] - group[i] for i in range(len(group) - 1)]

The `length - 1` random draws `int(random() * total)` are modelled by the
list `draws`; each lies in `[0, total]` since `random()` is in `[0, 1)`. -/

/-- The comprehension `[group[i + 1] - group[i] for i in range(len(group) - 1)]`. -/
def consecutiveDiffs : List Int → List Int
  | a :: b :: rest => (b - a) :: consecutiveDiffs (b :: rest)
  | _ => []

/-- `Utility.summed_list` (utilities.py lines 546-567): telescoping
differences of the draws, sorted and bracketed by `0` and `total`. -/
def summed_list (length total : Int) (draws : List Int) :
    Except String (List Int) :=
  if length < 1 then Except.error "The list length must be >= 1"
  else if total < 0 then Except.error "The sum (total) must be >= 0"
  else
    Except.ok (consecutiveDiffs
      (0 :: (List.insertionSort (· ≤ ·) draws ++ [total])))

lemma consecutiveDiffs_length :
    ∀ l : List Int, (consecutiveDiffs l).length = l.length - 1
  | [] => rfl
  | [_] => rfl
  | a :: b :: rest => by
    simp only [consecutiveDiffs, List.length_cons]
    rw [consecutiveDiffs_length (b :: rest)]
    simp

lemma consecutiveDiffs_sum : ∀ (l : List Int) (a : Int),
    (consecutiveDiffs (a :: l)).sum = l.getLastD a - a
  | [], a => by simp [consecutiveDiffs]
  | b :: rest, a => by
    simp only [consecutiveDiffs, List.sum_cons]
    rw [consecutiveDiffs_sum rest b, List.getLastD_cons]
    ring

lemma consecutiveDiffs_nonneg :
    ∀ l : List Int, List.Chain' (· ≤ ·) l →
      ∀ x ∈ consecutiveDiffs l, 0 ≤ x
  | [], _, x, hx => absurd hx (by simp [consecutiveDiffs])
  | [_], _, x, hx => absurd hx (by simp [consecutiveDiffs])
  | a :: b :: rest, hch, x, hx => by
    simp only [consecutiveDiffs, List.mem_cons] at hx
    rcases hx with hx | hx
    · have hab : a ≤ b := (List.chain'_cons.mp hch).1
      subst hx
      omega
    · exact consecutiveDiffs_nonneg (b :: rest)
        (List.chain'_cons.mp hch).2 x hx

/-- Claim C9: for `length >= 1` and `total >= 0` (and draws within
`[0, total]` as `int(random() * total)` always is),
`summed_list(length, total)` returns exactly `length` non-negative
integers summing to exactly `total`; for `length < 1` or `total < 0` it
raises `ValueError`. -/
theorem C9_summed_list (length total : Int) (draws : List Int)
    (hlen : draws.length = (length - 1).toNat)
    (hrange : ∀ d ∈ draws, 0 ≤ d ∧ d ≤ total) :
    (1 ≤ length → 0 ≤ total →
      ∃ out, summed_list length total draws = Except.ok out ∧
        out.length = length.toNat ∧ out.sum = total ∧ ∀ x ∈ out, 0 ≤ x) ∧
    (length < 1 →
      summed_list length total draws
        = Except.error "The list length must be >= 1") ∧
    (1 ≤ length → total < 0 →
      summed_list length total draws
        = Except.error "The sum (total) must be >= 0") := by
  refine ⟨?_, ?_, ?_⟩
  · intro h1 h2
    have hmem : ∀ d ∈ List.insertionSort (· ≤ ·) draws, 0 ≤ d ∧ d ≤ total :=
      fun d hd =>
        hrange d ((List.perm_insertionSort (· ≤ ·) draws).mem_iff.mp hd)
    have hsorted : List.Sorted (· ≤ ·) (List.insertionSort (· ≤ ·) draws) :=
      List.sorted_insertionSort (· ≤ ·) draws
    have hpair :
        List.Pairwise (· ≤ ·)
          (0 :: (List.insertionSort (· ≤ ·) draws ++ [total])) := by
      rw [List.pairwise_cons]
      constructor
      · intro b hb
        rcases List.mem_append.mp hb with hb | hb
        · exact (hmem b hb).1
        · have : b = total := by simpa using hb
          omega
      · rw [List.pairwise_append]
        refine ⟨hsorted, by simp, ?_⟩
        intro a ha b hb
        have : b = total := by simpa using hb
        subst this
        exact (hmem a ha).2
    have hchain :
        List.Chain' (· ≤ ·)
          (0 :: (List.insertionSort (· ≤ ·) draws ++ [total])) :=
      List.chain'_iff_pairwise.mpr hpair
    refine ⟨consecutiveDiffs
      (0 :: (List.insertionSort (· ≤ ·) draws ++ [total])), ?_, ?_, ?_, ?_⟩
    · unfold summed_list
      rw [if_neg (by omega), if_neg (by omega)]
    · rw [consecutiveDiffs_length]
      have hslen : (List.insertionSort (· ≤ ·) draws).length = draws.length :=
        (List.perm_insertionSort (· ≤ ·) draws).length_eq
      simp only [List.length_cons, List.length_append, List.length_singleton,
        List.length_nil, hslen, hlen]
      omega
    · rw [consecutiveDiffs_sum, List.getLastD_concat]
      ring
    · exact consecutiveDiffs_nonneg _ hchain
  · intro h1
    unfold summed_list
    rw [if_pos h1]
  · intro h1 h2
    unfold summed_list
    rw [if_neg (by omega), if_pos h2]

/-- Claim C9 witness: `length = 3`, `total = 10`, draws `[7, 2]`. -/
theorem C9_summed_list_witness :
    ∃ out, summed_list 3 10 [7, 2] = Except.ok out ∧
      out.length = (3 : Int).toNat ∧ out.sum = 10 ∧ ∀ x ∈ out, 0 ≤ x := by
  exact (C9_summed_list 3 10 [7, 2] (by decide)
    (by intro d hd; fin_cases hd <;> omega)).1 (by omega) (by omega)

/-! ## C10: `Utility.random_set`

utilities.py lines 467-479:

    if size <= 0:
        return []
    if size >= len(group):
        return group
    new_set = []
    while len(new_set) < size:
        selected = group[cls.random(0, len(group) - 1)]
        if selected not in new_set:
            new_set.append(selected)
    return new_set
-/

/-- The `while len(new_set) < size` loop of `Utility.random_set`, with
explicit fuel. -/
def randomSetLoop {α : Type} [DecidableEq α] [Inhabited α] (group : List α)
    (choices : Nat → Nat) (size : Nat) :
    Nat → Nat → List α → Option (List α)
  | 0, _, acc => if acc.length < size then none else some acc
  | fuel + 1, k, acc =>
    if acc.length < size then
      let selected :=
        group.getD (Utility.random 0 (group.length - 1) (choices k)) default
      randomSetLoop group choices size fuel (k + 1)
        (if selected ∈ acc then acc else acc ++ [selected])
    else some acc

/-- `Utility.random_set` (utilities.py lines 467-479). -/
def random_set {α : Type} [DecidableEq α] [Inhabited α] (group : List α)
    (size : Int) (choices : Nat → Nat) (fuel : Nat) : Option (List α) :=
  if size ≤ 0 then some []
  else if (group.length : Int) ≤ size then some group
  else randomSetLoop group choices size.toNat fuel 0 []

lemma random_index_lt {n c : Nat} (hn : 0 < n) :
    Utility.random 0 (n - 1) c < n := by
  unfold Utility.random
  by_cases h : 0 ≥ n - 1
  · rw [if_pos h]; omega
  · rw [if_neg h]
    simp only [Nat.sub_zero, Nat.zero_add]
    have : c % (n - 1 + 1) < n - 1 + 1 := Nat.mod_lt _ (by omega)
    omega

lemma randomSetLoop_spec {α : Type} [DecidableEq α] [Inhabited α]
    (group : List α) (choices : Nat → Nat) (size : Nat)
    (hg : 0 < group.length) :
    ∀ fuel k acc, acc.Nodup → (∀ t ∈ acc, t ∈ group) →
      acc.length ≤ size →
      ∀ out, randomSetLoop group choices size fuel k acc = some out →
        out.Nodup ∧ (∀ t ∈ out, t ∈ group) ∧ out.length = size := by
  intro fuel
  induction fuel with
  | zero =>
    intro k acc hnd hsub hlen out h
    simp only [randomSetLoop] at h
    by_cases hlt : acc.length < size
    · simp [hlt] at h
    · rw [if_neg hlt] at h
      have hout : acc = out := by simpa using h
      subst hout
      exact ⟨hnd, hsub, by omega⟩
  | succ fuel ih =>
    intro k acc hnd hsub hlen out h
    simp only [randomSetLoop] at h
    by_cases hlt : acc.length < size
    · rw [if_pos hlt] at h
      have hidx : Utility.random 0 (group.length - 1) (choices k)
          < group.length := random_index_lt hg
      have hselmem :
          group.getD (Utility.random 0 (group.length - 1) (choices k)) default
            ∈ group := by
        rw [List.getD_eq_getElem group default hidx]
        exact List.getElem_mem hidx
      by_cases hin :
          group.getD (Utility.random 0 (group.length - 1) (choices k)) default
            ∈ acc
      · rw [if_pos hin] at h
        exact ih (k + 1) acc hnd hsub (by omega) out h
      · rw [if_neg hin] at h
        refine ih (k + 1) _ ?_ ?_ ?_ out h
        · rw [← List.concat_eq_append]
          exact List.Nodup.concat hin hnd
        · intro t ht
          rcases List.mem_append.mp ht with h1 | h2
          · exact hsub t h1
          · have ht2 : t = group.getD
                (Utility.random 0 (group.length - 1) (choices k)) default := by
              simpa using h2
            rw [ht2]
            exact hselmem
        · simp only [List.length_append, List.length_singleton]
          omega
    · rw [if_neg hlt] at h
      have hout : acc = out := by simpa using h
      subst hout
      exact ⟨hnd, hsub, by omega⟩

lemma randomSetLoop_dup_none (choices : Nat → Nat) :
    ∀ fuel k acc, acc = ([] : List Nat) ∨ acc = [5] →
      randomSetLoop [5, 5, 5] choices 2 fuel k acc = none := by
  have hgetD : ∀ i, i < 3 → ([5, 5, 5] : List Nat).getD i default = 5 := by
    intro i hi
    interval_cases i <;> rfl
  intro fuel
  induction fuel with
  | zero =>
    intro k acc hacc
    rcases hacc with h | h <;> subst h <;> rfl
  | succ fuel ih =>
    intro k acc hacc
    have hsel : ([5, 5, 5] : List Nat).getD
        (Utility.random 0 (([5, 5, 5] : List Nat).length - 1) (choices k))
        default = 5 :=
      hgetD _ (random_index_lt (by decide))
    rcases hacc with h | h <;> subst h
    · simp only [randomSetLoop]
      rw [if_pos (by decide)]
      rw [hsel]
      rw [if_neg (by simp)]
      exact ih (k + 1) [5] (Or.inr rfl)
    · simp only [randomSetLoop]
      rw [if_pos (by decide)]
      rw [hsel]
      rw [if_pos (by simp)]
      exact ih (k + 1) [5] (Or.inr rfl)

/-- Claim C10: `random_set(group, size)` returns `[]` for `size <= 0` and
the original list itself for `size >= len(group)`; for `0 < size <
len(group)`, whenever the selection loop returns it returns a
duplicate-free list of exactly `size` members of `group`; and for a group
with duplicate values (here `[5, 5, 5]` with `size = 2`) the loop never
terminates, whatever the random choices. -/
theorem C10_random_set {α : Type} [DecidableEq α] [Inhabited α]
    (group : List α) (size : Int) (choices : Nat → Nat) (fuel : Nat) :
    (size ≤ 0 → random_set group size choices fuel = some []) ∧
    (0 < size → (group.length : Int) ≤ size →
      random_set group size choices fuel = some group) ∧
    (0 < size → size < (group.length : Int) →
      ∀ out, random_set group size choices fuel = some out →
        out.Nodup ∧ (∀ t ∈ out, t ∈ group) ∧ out.length = size.toNat) ∧
    (∀ ch f, random_set ([5, 5, 5] : List Nat) 2 ch f = none) := by
  refine ⟨?_, ?_, ?_, ?_⟩
  · intro h
    unfold random_set
    rw [if_pos h]
  · intro h1 h2
    unfold random_set
    rw [if_neg (by omega), if_pos h2]
  · intro h1 h2 out hout
    unfold random_set at hout
    rw [if_neg (by omega), if_neg (by omega)] at hout
    exact randomSetLoop_spec group choices size.toNat (by omega) fuel 0 []
      List.nodup_nil (by simp) (by simp) out hout
  · intro ch f
    unfold random_set
    rw [if_neg (by omega), if_neg (by simp)]
    exact randomSetLoop_dup_none ch f 0 [] (Or.inl rfl)

/-- Claim C10 witness: the three terminating branches at concrete
inputs. -/
theorem C10_random_set_witness :
    random_set ([1, 2, 3] : List Nat) (-1) (fun k => k) 5 = some [] ∧
    random_set ([1, 2, 3] : List Nat) 7 (fun k => k) 5 = some [1, 2, 3] ∧
    (([1, 2] : List Nat).Nodup ∧ (∀ t ∈ ([1, 2] : List Nat), t ∈ ([1, 2, 3, 4] : List Nat)) ∧
      ([1, 2] : List Nat).length = (2 : Int).toNat) := by
  have hq : random_set ([1, 2, 3, 4] : List Nat) 2 (fun k => k) 9
      = some [1, 2] := by decide
  refine ⟨(C10_random_set [1, 2, 3] (-1) (fun k => k) 5).1 (by omega),
    (C10_random_set [1, 2, 3] 7 (fun k => k) 5).2.1 (by omega) (by simp),
    (C10_random_set [1, 2, 3, 4] 2 (fun k => k) 9).2.2.1 (by omega)
      (by simp) [1, 2] hq⟩
